import Mathlib

set_option maxRecDepth 100000

/-!
Verification of the `cocors` conventional-commit / semantic-version core.

Strings are embedded as `List Char` (the sources operate on UTF-8 Rust
strings whose relevant characters are all ASCII); Rust `u64` fields are
embedded as `Nat` with explicit `% 2 ^ 64` where the source's wrapping
(release-profile) arithmetic matters.
-/

namespace Cocors

/-- 2^64, the modulus of the source's `u64` fields. -/
def u64Mod : Nat := 2 ^ 64

/-- Character class `\d` of the version regex. -/
def isDigitChar (c : Char) : Bool := 48 ≤ c.toNat && c.toNat ≤ 57

/-- Character class `[0-9A-Za-z-\.]` used by the version regex for the
pre-release and metadata groups. -/
def isIdentChar (c : Char) : Bool :=
  isDigitChar c || (65 ≤ c.toNat && c.toNat ≤ 90) || (97 ≤ c.toNat && c.toNat ≤ 122)
    || c = '-' || c = '.'

/-- Character class `[a-z,A-Z]` of the commit regex (lower-case letters,
the comma, upper-case letters — the comma is part of the class as written
in the source). -/
def isTypeChar (c : Char) : Bool :=
  (97 ≤ c.toNat && c.toNat ≤ 122) || c = ',' || (65 ≤ c.toNat && c.toNat ≤ 90)

/-- ASCII letters; used to state claims about "alphabetic" type tokens. -/
def isAsciiAlpha (c : Char) : Bool :=
  (65 ≤ c.toNat && c.toNat ≤ 90) || (97 ≤ c.toNat && c.toNat ≤ 122)

/-- Numeric value of a decimal digit string, as accumulated by Rust's
`str::parse::<u64>` before its overflow check. -/
def charsToNat (ds : List Char) : Nat :=
  ds.foldl (fun a c => 10 * a + (c.toNat - 48)) 0

/-- `str::parse::<u64>` on a non-empty all-digit capture: fails exactly
when the value overflows `u64`. -/
def parseU64 (ds : List Char) : Option Nat :=
  if charsToNat ds < u64Mod then some (charsToNat ds) else none

/-- Decimal rendering of a `u64` field, as produced by Rust's `Display`
for unsigned integers. -/
def natToChars (n : Nat) : List Char :=
  if n = 0 then ['0'] else (Nat.digits 10 n).reverse.map fun d => Char.ofNat (48 + d)

/-- `src/coco/src/semantic_version/version.rs`: the `Version` struct
(`major.minor.patch[-pre_release][+metadata]`). -/
structure Version where
  major : Nat
  minor : Nat
  patch : Nat
  pre_release : Option (List Char)
  metadata : Option (List Char)
deriving DecidableEq

/-- Captures of the version regex
`(\d+)\.(\d+)\.(\d+)(-[0-9A-Za-z-\.]+)?(\+[0-9A-Za-z-\.]+)?`.
Groups 4 and 5 include their leading separator, as in the source. -/
structure VCaps where
  g1 : List Char
  g2 : List Char
  g3 : List Char
  g4 : Option (List Char)
  g5 : Option (List Char)
deriving DecidableEq

/-- One optional separator-prefixed group `(sep[0-9A-Za-z-\.]+)?`:
if the next character is `sep` and at least one class character follows,
the group matches greedily; otherwise it is skipped. Returns the capture
(including the separator) and the remaining input. -/
def optGroup (sep : Char) (s : List Char) : Option (List Char) × List Char :=
  match s with
  | [] => (none, s)
  | c :: t =>
    if c = sep then
      let run := t.takeWhile isIdentChar
      if run.isEmpty then (none, s) else (some (c :: run), t.drop run.length)
    else (none, s)

/-- Match of the version regex at a fixed start position. The mandatory
part `(\d+)\.(\d+)\.(\d+)` is maximal-munch (equivalent to the regex's
greedy-with-backtracking semantics: shrinking a digit run always leaves a
digit where a literal dot is required); the two optional groups are
greedy and cannot steal from one another because the class excludes `+`. -/
def versionMatchAt (s : List Char) : Option VCaps :=
  let d1 := s.takeWhile isDigitChar
  let r1 := s.dropWhile isDigitChar
  if d1.isEmpty then none else
  match r1 with
  | [] => none
  | c1 :: r2 =>
    if c1 = '.' then
      let d2 := r2.takeWhile isDigitChar
      let r3 := r2.dropWhile isDigitChar
      if d2.isEmpty then none else
      match r3 with
      | [] => none
      | c2 :: r4 =>
        if c2 = '.' then
          let d3 := r4.takeWhile isDigitChar
          let r5 := r4.dropWhile isDigitChar
          if d3.isEmpty then none else
          let pre := optGroup '-' r5
          let meta := optGroup '+' pre.2
          some ⟨d1, d2, d3, pre.1, meta.1⟩
        else none
    else none

/-- Leftmost match of the version regex: the engine tries every start
position from the left and keeps the first success. -/
def versionFind (s : List Char) : Option VCaps :=
  match versionMatchAt s, s with
  | some caps, _ => some caps
  | none, [] => none
  | none, _ :: t => versionFind t

/-- `Version::parse` (`version.rs:70-125`): leftmost regex match anywhere
in the string, strip the leading separator of the optional captures,
convert the three digit captures with `u64` overflow checks. -/
def Version.parse (s : List Char) : Option Version :=
  match versionFind s with
  | none => none
  | some caps =>
    match parseU64 caps.g1, parseU64 caps.g2, parseU64 caps.g3 with
    | some m, some n, some p =>
      some ⟨m, n, p, caps.g4.map (List.drop 1), caps.g5.map (List.drop 1)⟩
    | _, _, _ => none

/-- `impl Display for Version` (`version.rs:169-185`):
`major.minor.patch` then `-pre_release` and `+metadata` when present. -/
def Version.render (v : Version) : List Char :=
  natToChars v.major ++ '.' :: natToChars v.minor ++ '.' :: natToChars v.patch
    ++ (match v.pre_release with | none => [] | some p => '-' :: p)
    ++ (match v.metadata with | none => [] | some m => '+' :: m)

/-- `src/coco/src/conventional_commit/commit_type.rs`: the closed set of
commit types; `Other` is the `Default`. -/
inductive CommitType where
  | Fix | Feature | BreakingChange | Build | Chore | Ci | Docs | Style
  | Refactor | Performance | Test | Other
deriving DecidableEq

/-- Modelled from the spec: `ConventionalCommit` is re-exported by
`coco/src/lib.rs` but its definition is not under `src/`; per the spec,
`bump`/`rollback` consume a "`Commit`/breaking-flag+type pair", so it is
embedded as exactly that pair. -/
structure ConventionalCommit where
  breaking : Bool
  commit_type : CommitType
deriving DecidableEq

/-- `Version::bump` (`version.rs:130-152`). The `breaking` branch
increments `major` and returns at once, leaving every other field
unchanged; the three typed branches fall through to the lines clearing
`pre_release` and `metadata`, while `_ => return` skips them. `u64`
increments wrap modulo 2^64 (release-profile semantics). -/
def Version.bump (v : Version) (c : ConventionalCommit) : Version :=
  if c.breaking then
    { v with major := (v.major + 1) % u64Mod }
  else
    match c.commit_type with
    | CommitType.Fix =>
      { v with patch := (v.patch + 1) % u64Mod, pre_release := none, metadata := none }
    | CommitType.Feature =>
      { v with minor := (v.minor + 1) % u64Mod, patch := 0,
               pre_release := none, metadata := none }
    | CommitType.BreakingChange =>
      { v with major := (v.major + 1) % u64Mod, minor := 0, patch := 0,
               pre_release := none, metadata := none }
    | _ => v

/-- `Version::rollback` (`version.rs:154-166`): unconditional `u64`
decrements. In the release profile `0 - 1` wraps to `2^64 - 1`
(embedded as `(x + 2^64 - 1) % 2^64`); in the debug profile the same
subtraction panics. No failure value is returned. -/
def Version.rollback (v : Version) (c : ConventionalCommit) : Version :=
  if c.breaking then
    { v with major := (v.major + u64Mod - 1) % u64Mod }
  else
    match c.commit_type with
    | CommitType.Fix => { v with patch := (v.patch + u64Mod - 1) % u64Mod }
    | CommitType.Feature => { v with minor := (v.minor + u64Mod - 1) % u64Mod }
    | CommitType.BreakingChange => { v with major := (v.major + u64Mod - 1) % u64Mod }
    | _ => v

/-- Modelled from the spec: `Version::reset` is called by `Commit::bump`
but is not defined under `src/`; the spec says it "sets major/minor/patch
to 0 and clears both optional fields". -/
def Version.reset (_ : Version) : Version := ⟨0, 0, 0, none, none⟩

/-- Rust `str` ordering on ASCII strings: lexicographic byte order. -/
def cmpChars : List Char → List Char → Ordering
  | [], [] => Ordering.eq
  | [], _ :: _ => Ordering.lt
  | _ :: _, [] => Ordering.gt
  | a :: as, b :: bs =>
    if a.toNat < b.toNat then Ordering.lt
    else if b.toNat < a.toNat then Ordering.gt
    else cmpChars as bs

/-- The `loop` of `impl Ord for Version` (`version.rs:217-236`) over the
two `split('.')` iterators: an exhausted side is smaller, a differing
identifier pair decides by `str` comparison. -/
def cmpIdentLists : List (List Char) → List (List Char) → Ordering
  | [], [] => Ordering.eq
  | [], _ :: _ => Ordering.lt
  | _ :: _, [] => Ordering.gt
  | a :: as, b :: bs =>
    match cmpChars a b with
    | Ordering.eq => cmpIdentLists as bs
    | o => o

/-- Rust's derived `Option` ordering (`None < Some`), used at
`version.rs:203` on the pre-release fields. -/
def cmpOptChars : Option (List Char) → Option (List Char) → Ordering
  | none, none => Ordering.eq
  | none, some _ => Ordering.lt
  | some _, none => Ordering.gt
  | some a, some b => cmpChars a b

/-- `impl Ord for Version` (`version.rs:187-241`): major, minor, patch
numerically; then, unless both sides carry a pre-release, the reversed
`Option` ordering (so a release outranks a pre-release); otherwise the
identifier-list loop over the dot-split pre-release strings. -/
def Version.cmp (a b : Version) : Ordering :=
  if a.major ≠ b.major then compare a.major b.major
  else if a.minor ≠ b.minor then compare a.minor b.minor
  else if a.patch ≠ b.patch then compare a.patch b.patch
  else if ¬ (a.pre_release.isSome ∧ b.pre_release.isSome) then
    (cmpOptChars a.pre_release b.pre_release).swap
  else
    match a.pre_release, b.pre_release with
    | some p, some q => cmpIdentLists (p.splitOn '.') (q.splitOn '.')
    | _, _ => Ordering.eq

/-- `lint/level.rs:3-9`: severity levels, declared in the order
`Error, Warning, Info, Suggestion`, with the derived `Ord` following
declaration order. -/
inductive Level where
  | Error | Warning | Info | Suggestion
deriving DecidableEq

/-- Rank of a level under the derived `Ord` (`Error` smallest). -/
def Level.rank : Level → Nat
  | Level.Error => 0
  | Level.Warning => 1
  | Level.Info => 2
  | Level.Suggestion => 3

/-- `lint/violation.rs`: one diagnostic. -/
structure Violation where
  level : Level
  message : List Char
  description : Option (List Char)
deriving DecidableEq

/-- `impl Ord for Violation` compares by `level` alone; this is the
order `res.lints.sort_unstable()` sorts by. -/
def vle (a b : Violation) : Prop := a.level.rank ≤ b.level.rank

instance : DecidableRel vle := fun a b =>
  inferInstanceAs (Decidable (a.level.rank ≤ b.level.rank))

instance : IsTotal Violation vle := ⟨fun a b => Nat.le_total a.level.rank b.level.rank⟩

instance : IsTrans Violation vle := ⟨fun _ _ _ h h2 => Nat.le_trans h h2⟩

/-- `commit.rs:85-94`: the single diagnostic of the structural-failure
path (top-level regex did not match). -/
def formatViolation : Violation :=
  { level := Level.Error,
    message :=
      ("The format of the commit message is not conformant to conventional commit specification").toList,
    description := some
      ("Make sure that the specification follows the specification:<type>[optional scope]: <description>\n\n                    [optional body]\n\n                    [optional footer(s)]").toList }

/-- `commit.rs:155-159`: missing mandatory type token. -/
def typeMissingViolation : Violation :=
  { level := Level.Error,
    message := ("Mandatory commit type is missing").toList,
    description := some
      ("Make sure you provide a commit type that describes of what type the change is (e.g. fix, feat, BREAKING CHANGE). Type must be ascii letters only").toList }

/-- `commit.rs:168-172`: scope parentheses absent. -/
def scopeMissingViolation : Violation :=
  { level := Level.Suggestion,
    message := ("Optional scope is missing").toList,
    description := some
      ("Consider adding a scope to the commit message to specify where the changes have been made").toList }

/-- `commit.rs:177-181`: scope parentheses present but empty. -/
def scopeEmptyViolation : Violation :=
  { level := Level.Error,
    message := ("Scope is empty").toList,
    description := some
      ("Scope is an optional parameter, but if not given the parenthesis must be removed").toList }

/-- `commit.rs:193-197`: missing mandatory description. -/
def descriptionMissingViolation : Violation :=
  { level := Level.Error,
    message := ("Mandatory description is missing").toList,
    description := some
      ("The short description of the commit is missing; this is mandatory field and must be provided").toList }

/-- `commit.rs:226-230`: informational "no footer" finding. -/
def noFooterViolation : Violation :=
  { level := Level.Info,
    message := ("No footer found").toList,
    description := none }

/-- `commit.rs:16-29`: the parsed `Commit`. The `footer` map is embedded
as an association list (the source's `HashMap` is unordered; only
emptiness and lookups matter to the claims). -/
structure Commit where
  breaking : Bool
  commit_type : CommitType
  scope : Option (List Char)
  description : List Char
  body : Option (List Char)
  footer : Option (List (List Char × List Char))
deriving DecidableEq

/-- `lint/lint_result.rs`. -/
structure LintResult where
  commit : Option Commit
  lints : List Violation
deriving DecidableEq

/-- Captures of the commit regex
`([a-z,A-Z]+)?(\((.+)?\))?(!)?(?>: )(.+)?(\n\n(?:.|\n)*)?`
(`commit.rs:77`). -/
structure CCaps where
  g1 : Option (List Char)
  g2 : Option (List Char)
  g3 : Option (List Char)
  g4 : Option (List Char)
  g5 : Option (List Char)
  g6 : Option (List Char)
deriving DecidableEq

/-- The mandatory tail `(!)?(?>: )` of the commit regex: an optional
`!` followed by the literal `": "` (the atomic group around a fixed
literal behaves as the literal). Skipping a present `!` can never help,
since `!` is not `:`, so the alternatives are disjoint. Returns whether
group 4 matched and the remaining input. -/
def bangColon : List Char → Option (Bool × List Char)
  | a :: b :: r =>
    if a = ':' ∧ b = ' ' then some (false, r)
    else if a = '!' then
      match r with
      | c :: r2 => if b = ':' ∧ c = ' ' then some (true, r2) else none
      | [] => none
    else none
  | _ => none

/-- All ways to read `s` as `inner ++ ')' :: rest` with `inner` free of
newlines (the candidates for closing the scope group `\((.+)?\)`, whose
inner `.` cannot cross a line). Listed shortest `inner` first. -/
def closeSplits : List Char → List (List Char × List Char)
  | [] => []
  | c :: t =>
    if c = '\n' then []
    else
      let deeper := (closeSplits t).map fun p => (c :: p.1, p.2)
      if c = ')' then ([], t) :: deeper else deeper

/-- Backtracking choice of the scope group's closing parenthesis: the
greedy inner `(.+)?` prefers the rightmost `)` whose continuation
`(!)?(?>: )` still matches, so candidates are tried longest-inner first
(`closeSplits` lists shortest first, hence the recursion prefers the
tail). Returns the inner text, the `!` flag and the remaining input. -/
def pickClose : List (List Char × List Char) → Option (List Char × Bool × List Char)
  | [] => none
  | (inner, rest) :: t =>
    match pickClose t with
    | some r => some r
    | none =>
      match bangColon rest with
      | some (b, r) => some (inner, b, r)
      | none => none

/-- Builds the captures once the mandatory `": "` has matched: group 5
is the greedy `(.+)?` (the rest of the line, absent when empty) and
group 6 is `(\n\n(?:.|\n)*)?` (present exactly when the remainder starts
with a blank line; greedy, so it captures the whole remainder including
the two newlines). -/
def mkCaps (g1 g2 g3 : Option (List Char)) (b : Bool) (r : List Char) : CCaps :=
  let e := r.takeWhile fun c => !(c = '\n')
  let r1 := r.drop e.length
  { g1 := g1, g2 := g2, g3 := g3,
    g4 := if b then some ['!'] else none,
    g5 := if e.isEmpty then none else some e,
    g6 :=
      match r1 with
      | a :: a2 :: _ => if a = '\n' ∧ a2 = '\n' then some r1 else none
      | _ => none }

/-- Match of the commit regex at a fixed start position. The leading
type group is maximal-munch (shrinking it leaves a class character where
`(`, `!` or `:` is required, so backtracking into it can never help);
the scope group backtracks through `pickClose`; once `": "` matches the
remaining groups are optional and deterministic. -/
def commitMatchAt (s : List Char) : Option CCaps :=
  let run := s.takeWhile isTypeChar
  let rest0 := s.dropWhile isTypeChar
  let g1 := if run.isEmpty then none else some run
  match rest0 with
  | [] => none
  | c :: t =>
    if c = '(' then
      match pickClose (closeSplits t) with
      | some (inner, b, r) =>
        some (mkCaps g1 (some ('(' :: (inner ++ [')'])))
          (if inner.isEmpty then none else some inner) b r)
      | none =>
        -- the optional scope group fails here, and with it the whole
        -- position: the literal `": "` would have to match at `(`.
        none
    else
      match bangColon (c :: t) with
      | some (b, r) => some (mkCaps g1 none none b r)
      | none => none

/-- Leftmost match of the commit regex. -/
def commitFind (s : List Char) : Option CCaps :=
  match commitMatchAt s, s with
  | some caps, _ => some caps
  | none, [] => none
  | none, _ :: t => commitFind t

/-- `get_commit_type`'s token table (`commit.rs:137-151`): the
lower-cased token is looked up, anything unrecognized maps to `Other`
(the lower-casing is ASCII — the captured token is ASCII by the class). -/
def commitTypeOf (t : List Char) : CommitType :=
  let l := t.map Char.toLower
  if l = ("fix").toList then CommitType.Fix
  else if l = ("feat").toList then CommitType.Feature
  else if l = ("breaking change").toList then CommitType.BreakingChange
  else if l = ("build").toList then CommitType.Build
  else if l = ("chore").toList then CommitType.Chore
  else if l = ("style").toList then CommitType.Style
  else if l = ("docs").toList then CommitType.Docs
  else if l = ("refactor").toList then CommitType.Refactor
  else if l = ("perf").toList then CommitType.Performance
  else if l = ("test").toList then CommitType.Test
  else if l = ("ci").toList then CommitType.Ci
  else CommitType.Other

/-- `get_commit_type` (`commit.rs:134-163`): value and pushed lints. -/
def getCommitType (caps : CCaps) : Option CommitType × List Violation :=
  match caps.g1 with
  | none => (none, [typeMissingViolation])
  | some t => (some (commitTypeOf t), [])

/-- `get_commit_scope` (`commit.rs:165-188`): value and pushed lints. -/
def getCommitScope (caps : CCaps) : Option (List Char) × List Violation :=
  match caps.g2 with
  | none => (none, [scopeMissingViolation])
  | some _ =>
    match caps.g3 with
    | none => (none, [scopeEmptyViolation])
    | some sc => (some sc, [])

/-- `get_commit_header` (`commit.rs:190-202`): value and pushed lints. -/
def getCommitHeader (caps : CCaps) : Option (List Char) × List Violation :=
  match caps.g5 with
  | none => (none, [descriptionMissingViolation])
  | some d => (some d, [])

/-- Whether a line contains the substring `": "` (so the footer regex
`(.*)(?>: )(.*)` can match within it). -/
def containsColonSpace : List Char → Bool
  | [] => false
  | a :: t =>
    match t with
    | b :: _ => if a = ':' ∧ b = ' ' then true else containsColonSpace t
    | [] => false

/-- Byte offset, within a list of `\n`-separated lines, of the start of
the first line containing `": "` — which is exactly `.start()` of the
leftmost match of `(.*)(?>: )(.*)`: a match cannot cross a newline, and
within the first line that admits one the leftmost start is the line
start. -/
def footerStartAux : List (List Char) → Option Nat
  | [] => none
  | l :: ls =>
    if containsColonSpace l then some 0
    else (footerStartAux ls).map fun k => l.length + 1 + k

/-- `BODY_FOOTER_RE.find(&body).map(.start())` (`commit.rs:223-234`). -/
def footerFindStart (s : List Char) : Option Nat :=
  footerStartAux (s.splitOn '\n')

/-- Split a line at its last `": "` (the greedy `(.*)` of the footer
regex backtracks from the right), giving the key/value pair captured
for that line. -/
def splitLastCS : List Char → Option (List Char × List Char)
  | [] => none
  | c :: t =>
    match splitLastCS t with
    | some (k, v) => some (c :: k, v)
    | none =>
      match t with
      | b :: v => if c = ':' ∧ b = ' ' then some ([], v) else none
      | [] => none

/-- `HashMap::insert`: last value wins per key. -/
def mapInsert (m : List (List Char × List Char)) (k v : List Char) :
    List (List Char × List Char) :=
  if m.any fun p => p.1 = k then m.map fun p => if p.1 = k then (k, v) else p
  else m ++ [(k, v)]

/-- The key/value map accumulated by the `captures_iter` loop at
`commit.rs:236-243` (one match per `": "`-carrying line, split at the
line's last `": "`). The source builds this map into a local variable
`footer` and then drops it without ever storing it in the result. -/
def footerPairs (s : List Char) : List (List Char × List Char) :=
  (s.splitOn '\n').foldl
    (fun m l =>
      match splitLastCS l with
      | some (k, v) => mapInsert m k v
      | none => m)
    []

/-- `get_commit_body_footer` (`commit.rs:204-248`): when group 6 is
absent, `(None, None)` with no lint; when present but no footer line
matches, the whole block is the body plus an `Info` lint; otherwise the
body is the block up to the first footer match. The second component —
the footer — is `none` on every path, because the source never assigns
its computed map (see `footerPairs`) to the result. The source's
`body.trim()` discards its result and is a no-op. -/
def getCommitBodyFooter (caps : CCaps) :
    (Option (List Char) × Option (List (List Char × List Char))) × List Violation :=
  match caps.g6 with
  | none => ((none, none), [])
  | some body =>
    match footerFindStart body with
    | none => ((some body, none), [noFooterViolation])
    | some start => ((some (body.take start), none), [])

/-- `Commit::lint` (`commit.rs:69-131`): structural-failure
short-circuit, the four field passes, `sort_unstable` (embedded as an
insertion sort by severity — every claim is insensitive to the order of
equal-severity entries), and the gated construction of the `Commit`. -/
def Commit.lint (s : List Char) : LintResult :=
  match commitFind s with
  | none => ⟨none, [formatViolation]⟩
  | some caps =>
    let lints := List.insertionSort vle
      ((getCommitType caps).2 ++ (getCommitScope caps).2
        ++ (getCommitHeader caps).2 ++ (getCommitBodyFooter caps).2)
    let commit :=
      match (getCommitType caps).1, (getCommitHeader caps).1 with
      | some ct, some h =>
        if lints.any fun l => l.level = Level.Error then none
        else some
          { breaking := caps.g4.isSome || ct = CommitType.BreakingChange,
            commit_type := ct,
            scope := (getCommitScope caps).1,
            description := h,
            body := (getCommitBodyFooter caps).1.1,
            footer := (getCommitBodyFooter caps).1.2 }
      | _, _ => none
    ⟨commit, lints⟩

/-- `Commit::bump` (`commit.rs:43-67`): the breaking branch saves the
incremented major, calls `reset()` and restores the major; the typed
branches mirror `Version::bump`. -/
def Commit.bump (c : Commit) (v : Version) : Version :=
  if c.breaking then
    { v.reset with major := (v.major + 1) % u64Mod }
  else
    match c.commit_type with
    | CommitType.Fix =>
      { v with patch := (v.patch + 1) % u64Mod, pre_release := none, metadata := none }
    | CommitType.Feature =>
      { v with minor := (v.minor + 1) % u64Mod, patch := 0,
               pre_release := none, metadata := none }
    | CommitType.BreakingChange =>
      { v with major := (v.major + 1) % u64Mod, minor := 0, patch := 0,
               pre_release := none, metadata := none }
    | _ => v

/-- Model of Rust's `str::trim` on ASCII input, used to state what the
spec calls the "trimmed" header text. -/
def isWsChar (c : Char) : Bool := c = ' ' || c = '\n' || c = '\t' || c = '\r'

/-- `str::trim`: strip whitespace from both ends. -/
def trimChars (s : List Char) : List Char :=
  ((s.dropWhile isWsChar).reverse.dropWhile isWsChar).reverse

/-- The message of the spec's worked example. -/
def exampleOneLiner : List Char :=
  ("feat: allow provided config object to extend other configs").toList

/-- Whether the type token was successfully extracted from the input:
a top-level match exists and its group 1 is present. -/
def typeExtracted (s : List Char) : Bool :=
  match commitFind s with
  | none => false
  | some caps => ((getCommitType caps).1).isSome

/-- Whether the header was successfully extracted from the input:
a top-level match exists and its group 5 is present. -/
def headerExtracted (s : List Char) : Bool :=
  match commitFind s with
  | none => false
  | some caps => ((getCommitHeader caps).1).isSome

/-- The commit value `lint` produces for `feat: x`. -/
def c9exCommit : Commit :=
  { breaking := false, commit_type := CommitType.Feature, scope := none,
    description := ("x").toList, body := none, footer := none }

/-- Well-formedness of an optional pre-release/metadata field as
guaranteed by `Version::parse`: non-empty and over the regex class. -/
def optIdent : Option (List Char) → Prop
  | none => True
  | some p => p ≠ [] ∧ ∀ c ∈ p, isIdentChar c = true

/-- Invariant of every `Version` obtained from `Version::parse` and
preserved by `bump`/`rollback`: numeric fields fit in `u64` and the
optional fields are well-formed. -/
def VersionInv (v : Version) : Prop :=
  v.major < u64Mod ∧ v.minor < u64Mod ∧ v.patch < u64Mod
    ∧ optIdent v.pre_release ∧ optIdent v.metadata

/-- The version `1.2.3-alpha.1+d408340` as parsed. -/
def c10exVersion : Version :=
  ⟨1, 2, 3, some (("alpha.1").toList), some (("d408340").toList)⟩

/-- A fix commit for the C10 witness. -/
def c10exCommit : ConventionalCommit := ⟨false, CommitType.Fix⟩

/-- C1: the claim says a breaking commit's bump resets minor/patch and
clears pre-release/metadata; `Version::bump`'s breaking branch
(`version.rs:131-134`) only increments major and returns, so
`1.2.3-alpha+m7` becomes `2.2.3-alpha+m7`, not `2.0.0`. -/
theorem c1_version_bump_breaking_keeps_fields :
    Version.bump ⟨1, 2, 3, some (("alpha").toList), some (("m7").toList)⟩
        ⟨true, CommitType.Feature⟩
      = ⟨2, 2, 3, some (("alpha").toList), some (("m7").toList)⟩ := by decide

/-- Supporting fact (not a claim): the sibling implementation
`Commit::bump` (`commit.rs:44-50`) does behave as C1 states, via
`reset()` plus restoring the incremented major. -/
theorem commit_bump_breaking_resets (v : Version) (c : Commit) (h : c.breaking = true) :
    Commit.bump c v = ⟨(v.major + 1) % u64Mod, 0, 0, none, none⟩ := by
  simp [Commit.bump, h, Version.reset]

/-- C2: the claim (and the comment inside `cmp` itself,
`version.rs:207-209`) requires `1.0.0-beta.2 < 1.0.0-beta.11`; the code
compares the identifiers `"2"` and `"11"` as strings, so it returns
`Greater` instead of `Less`. -/
theorem c2_cmp_beta2_beta11_gt :
    Version.cmp ⟨1, 0, 0, some (("beta.2").toList), none⟩
        ⟨1, 0, 0, some (("beta.11").toList), none⟩
      = Ordering.gt := by decide

/-- C3: the claim says rollback at a zero field reports a distinct
failure and never wraps; `Version::rollback` (`version.rs:154-166`)
decrements unconditionally, so each zero field wraps to `2^64 - 1`
(release profile; the debug profile panics), and no failure value
exists in its signature. -/
theorem c3_rollback_at_zero_wraps :
    Version.rollback ⟨1, 0, 0, none, none⟩ ⟨false, CommitType.Fix⟩
        = ⟨1, 0, 2 ^ 64 - 1, none, none⟩
      ∧ Version.rollback ⟨1, 0, 0, none, none⟩ ⟨false, CommitType.Feature⟩
        = ⟨1, 2 ^ 64 - 1, 0, none, none⟩
      ∧ Version.rollback ⟨0, 1, 1, none, none⟩ ⟨true, CommitType.Fix⟩
        = ⟨2 ^ 64 - 1, 1, 1, none, none⟩ := by
  refine ⟨by decide, by decide, by decide⟩

/-- C4: the claim says a `key: value` line in the trailing block yields
`footer == Some(map)`; `get_commit_body_footer` computes the map (here
`footerPairs`) but never assigns it to its result (`commit.rs:236-247`),
so the built commit's footer is `none` even though the trailing block
`\n\nReviewed-by: Z` contains the pair `("Reviewed-by", "Z")`. -/
theorem c4_footer_always_dropped :
    ((Commit.lint (("fix: x\n\nReviewed-by: Z").toList)).commit).map Commit.footer
        = some none
      ∧ footerPairs (("\n\nReviewed-by: Z").toList)
        = [((("Reviewed-by").toList), ("Z").toList)] := by
  refine ⟨by decide, by decide⟩

/-- C6 counterexample: on the valid one-line message `feat: x ` the
claim demands the header be the trimmed text after the colon (`x`), but
`lint` stores the untrimmed capture `x ` (trailing space kept). -/
theorem c6_counterexample :
    ((Commit.lint (("feat: x ").toList)).commit).map Commit.description
        = some (("x ").toList)
      ∧ trimChars ((" x ").toList) = ("x").toList
      ∧ ("x ").toList ≠ ("x").toList := by
  refine ⟨by decide, by decide, by decide⟩

/-- C7 counterexample: the claim demands exactly one `Info`-level
diagnostic (no footer) for the spec's worked one-line example, but the
body/footer pass returns without any lint when the regex's group 6 is
absent (`commit.rs:207-209`), so no `Info` diagnostic is produced. -/
theorem c7_counterexample :
    ((Commit.lint exampleOneLiner).lints.countP fun v => decide (v.level = Level.Info))
      = 0 := by decide

/-- C7 amended: the worked example yields the claimed commit value
(breaking false, type `Feature`, no scope, the untrimmed header, no body,
no footer) together with exactly one `Suggestion` diagnostic (missing
scope) and no other diagnostic — in particular no `Info`. -/
theorem c7_one_liner_eval :
    Commit.lint exampleOneLiner
      = { commit := some
            { breaking := false,
              commit_type := CommitType.Feature,
              scope := none,
              description := ("allow provided config object to extend other configs").toList,
              body := none,
              footer := none },
          lints := [scopeMissingViolation] } := by decide

/-- C8: on the empty string the top-level regex (which requires the
literal `": "`) cannot match, so `lint` short-circuits with exactly the
single `Error`-level structural diagnostic describing the required
format, and no commit. -/
theorem c8_empty_string_single_error :
    Commit.lint (("").toList) = { commit := none, lints := [formatViolation] }
      ∧ formatViolation.level = Level.Error := by
  refine ⟨by decide, rfl⟩

/-- C5: `lint` always returns its diagnostics sorted by severity
(`Error` first under the derived order `Error < Warning < Info <
Suggestion`), and it returns a commit exactly when no `Error`-level
diagnostic was recorded and both the type token and the header were
extracted. -/
theorem c5_lint_sorted_and_gated (s : List Char) :
    List.Sorted vle (Commit.lint s).lints
      ∧ ((Commit.lint s).commit.isSome
          = (!((Commit.lint s).lints.any fun l => decide (l.level = Level.Error))
              && typeExtracted s && headerExtracted s)) := by
  unfold Commit.lint typeExtracted headerExtracted
  cases hf : commitFind s with
  | none =>
    refine ⟨List.sorted_singleton _, ?_⟩
    decide
  | some caps =>
    constructor
    · exact List.sorted_insertionSort vle _
    · cases ht : (getCommitType caps).1 with
      | none => cases hh : (getCommitHeader caps).1 <;> simp [ht, hh]
      | some ct =>
        cases hh : (getCommitHeader caps).1 with
        | none => simp [ht, hh]
        | some h =>
          simp only [ht, hh, Option.isSome_some, Bool.true_and, Bool.and_true]
          by_cases ha :
              (List.insertionSort vle
                ((getCommitType caps).2 ++ (getCommitScope caps).2
                  ++ (getCommitHeader caps).2 ++ (getCommitBodyFooter caps).2)).any
                fun l => decide (l.level = Level.Error)
          · simp only [List.append_assoc] at ha ⊢
            rw [if_pos ha]
            simp [ha]
          · simp only [List.append_assoc] at ha ⊢
            rw [if_neg ha]
            simp only [Bool.not_eq_true] at ha
            simp [ha]

/-- Group 5, when captured, is non-empty: it is built from the greedy
`(.+)?`, which is only recorded when at least one character matched. -/
theorem mkCaps_g5_ne_nil (g1 g2 g3 : Option (List Char)) (b : Bool) (r : List Char)
    (e : List Char) (h : (mkCaps g1 g2 g3 b r).g5 = some e) : e ≠ [] := by
  unfold mkCaps at h
  simp only at h
  split at h
  · exact absurd h (by simp)
  · rename_i he
    obtain rfl : e = r.takeWhile fun c => !(c = '\n') := by
      exact (Option.some.injEq _ _).mp h.symm
    simpa [List.isEmpty_iff] using he

/-- Every successful match of the commit regex has a non-empty group 5
capture (when present). -/
theorem commitMatchAt_g5_ne_nil (s : List Char) (caps : CCaps)
    (h : commitMatchAt s = some caps) (e : List Char) (hg : caps.g5 = some e) :
    e ≠ [] := by
  unfold commitMatchAt at h
  simp only at h
  split at h
  · exact absurd h (by simp)
  · split at h
    · split at h
      · rename_i inner b r _
        obtain rfl : caps = mkCaps _ _ _ b r := (Option.some.injEq _ _).mp h.symm
        exact mkCaps_g5_ne_nil _ _ _ _ _ _ hg
      · exact absurd h (by simp)
    · split at h
      · rename_i b r _
        obtain rfl : caps = mkCaps _ _ _ b r := (Option.some.injEq _ _).mp h.symm
        exact mkCaps_g5_ne_nil _ _ _ _ _ _ hg
      · exact absurd h (by simp)

/-- Propagation of the group-5 property through the leftmost-match scan. -/
theorem commitFind_g5_ne_nil :
    ∀ (s : List Char) (caps : CCaps), commitFind s = some caps →
      ∀ e : List Char, caps.g5 = some e → e ≠ []
  | [], caps, h, e, hg => by
    unfold commitFind at h
    cases hm : commitMatchAt [] with
    | none => rw [hm] at h; exact absurd h (by simp)
    | some caps2 =>
      rw [hm] at h
      simp only at h
      injection h with h2
      exact commitMatchAt_g5_ne_nil [] caps2 hm e (h2 ▸ hg)
  | a :: t, caps, h, e, hg => by
    unfold commitFind at h
    cases hm : commitMatchAt (a :: t) with
    | none => rw [hm] at h; exact commitFind_g5_ne_nil t caps h e hg
    | some caps2 =>
      rw [hm] at h
      simp only at h
      injection h with h2
      exact commitMatchAt_g5_ne_nil (a :: t) caps2 hm e (h2 ▸ hg)

/-- C9: every commit built by `lint` satisfies the two data-model
invariants: `breaking` is set whenever the type is `BreakingChange`
(by construction at `commit.rs:120-121`), and the header is non-empty
(it is the non-empty group 5 capture). -/
theorem c9_commit_invariants (s : List Char) (c : Commit)
    (h : (Commit.lint s).commit = some c) :
    (c.commit_type = CommitType.BreakingChange → c.breaking = true)
      ∧ c.description ≠ [] := by
  unfold Commit.lint at h
  cases hf : commitFind s with
  | none => rw [hf] at h; exact absurd h (by simp)
  | some caps =>
    rw [hf] at h
    simp only at h
    cases ht : (getCommitType caps).1 with
    | none => rw [ht] at h; exact absurd h (by simp)
    | some ct =>
      cases hh : (getCommitHeader caps).1 with
      | none => rw [ht, hh] at h; exact absurd h (by simp)
      | some hd =>
        rw [ht, hh] at h
        simp only at h
        split at h
        · exact absurd h (by simp)
        · obtain rfl : c = _ := ((Option.some.injEq _ _).mp h).symm
          have hg5 : caps.g5 = some hd := by
            unfold getCommitHeader at hh
            cases hx : caps.g5 with
            | none => rw [hx] at hh; exact absurd hh (by simp)
            | some d =>
              rw [hx] at hh
              simp only at hh
              obtain rfl : d = hd := (Option.some.injEq _ _).mp hh
              rfl
          refine ⟨?_, commitFind_g5_ne_nil s caps hf hd hg5⟩
          intro hbc
          simp only at hbc
          simp [hbc]

/-- Witness for C9 at the concrete message `feat: x`. -/
theorem c9_commit_invariants_witness :
    (c9exCommit.commit_type = CommitType.BreakingChange → c9exCommit.breaking = true)
      ∧ c9exCommit.description ≠ [] :=
  c9_commit_invariants (("feat: x").toList) c9exCommit (by decide)

/-- `takeWhile` over an append whose left part satisfies the predicate
and whose right part starts with a failing character (or is empty). -/
theorem takeWhile_append_all {p : Char → Bool} :
    ∀ (t r : List Char), (∀ c ∈ t, p c = true) →
      (∀ c, r.head? = some c → p c = false) →
      (t ++ r).takeWhile p = t := by
  intro t r ht hr
  induction t with
  | nil =>
    simp only [List.nil_append]
    cases r with
    | nil => rfl
    | cons a r2 => simp [List.takeWhile_cons, hr a rfl]
  | cons a t2 ih =>
    have hpa : p a = true := ht a (by simp)
    have ih2 := ih fun c hc => ht c (by simp [hc])
    simp [List.takeWhile_cons, hpa, ih2]

/-- `dropWhile` counterpart of `takeWhile_append_all`. -/
theorem dropWhile_append_all {p : Char → Bool} :
    ∀ (t r : List Char), (∀ c ∈ t, p c = true) →
      (∀ c, r.head? = some c → p c = false) →
      (t ++ r).dropWhile p = r := by
  intro t r ht hr
  induction t with
  | nil =>
    simp only [List.nil_append]
    cases r with
    | nil => rfl
    | cons a r2 => simp [List.dropWhile_cons, hr a rfl]
  | cons a t2 ih =>
    have hpa : p a = true := ht a (by simp)
    have ih2 := ih fun c hc => ht c (by simp [hc])
    simp [List.dropWhile_cons, hpa, ih2]

/-- The mandatory tail reduces on a `": "` separator. -/
theorem bangColon_colon (r : List Char) : bangColon (':' :: ' ' :: r) = some (false, r) := by
  simp [bangColon]

/-- A successful match at a position makes the scan stop there. -/
theorem commitFind_of_matchAt (s : List Char) (caps : CCaps)
    (hm : commitMatchAt s = some caps) : commitFind s = some caps := by
  cases s with
  | nil => unfold commitFind; rw [hm]
  | cons a t => unfold commitFind; rw [hm]

/-- The commit regex on a plain `type: header` one-liner (no scope, no
bang, no body): group 1 is the type run, group 5 the header, all other
groups absent. -/
theorem commitMatchAt_plain (t h2 : List Char) (ht : t ≠ [])
    (hta : ∀ c ∈ t, isTypeChar c = true) (hh : h2 ≠ [])
    (hhn : ∀ c ∈ h2, ¬ c = '\n') :
    commitMatchAt (t ++ ':' :: ' ' :: h2)
      = some ⟨some t, none, none, none, some h2, none⟩ := by
  have hcol : ∀ c : Char, (':' :: ' ' :: h2).head? = some c → isTypeChar c = false := by
    intro c hc
    obtain rfl : c = ':' := by simpa using hc.symm
    decide
  have hrun := takeWhile_append_all t (':' :: ' ' :: h2) hta hcol
  have hdrop := dropWhile_append_all t (':' :: ' ' :: h2) hta hcol
  have htE : t.isEmpty = false := by
    cases t with
    | nil => exact absurd rfl ht
    | cons a t2 => rfl
  have hh2E : h2.isEmpty = false := by
    cases h2 with
    | nil => exact absurd rfl hh
    | cons a t2 => rfl
  have hpar : ((':' : Char) = '(') = False := eq_false (by decide)
  have he : h2.takeWhile (fun c => !(c = '\n')) = h2 :=
    List.takeWhile_eq_self_iff.mpr fun c hc => by simp [hhn c hc]
  unfold commitMatchAt mkCaps
  rw [hrun, hdrop]
  simp [htE, hh2E, hpar, bangColon_colon, he, List.drop_length]

/-- C6 amended: for every one-line message `type: header` with an
alphabetic type token and a non-empty single-line header, `lint` accepts
it with no `Error` diagnostics, and the stored header is exactly the text
after the `": "` separator — the source performs no trimming. -/
theorem c6_plain_one_liner (t h2 : List Char) (ht : t ≠ [])
    (hta : ∀ c ∈ t, isAsciiAlpha c = true) (hh : h2 ≠ [])
    (hhn : ∀ c ∈ h2, ¬ c = '\n') :
    ∃ c, (Commit.lint (t ++ ':' :: ' ' :: h2)).commit = some c
      ∧ c.description = h2
      ∧ ∀ v ∈ (Commit.lint (t ++ ':' :: ' ' :: h2)).lints, v.level ≠ Level.Error := by
  have hta2 : ∀ c ∈ t, isTypeChar c = true := by
    intro c hc
    have := hta c hc
    unfold isAsciiAlpha at this
    unfold isTypeChar
    rcases Bool.or_eq_true_iff.mp this with h1 | h1 <;> simp [h1]
  have hmatch := commitMatchAt_plain t h2 ht hta2 hh hhn
  have hfind := commitFind_of_matchAt _ _ hmatch
  have h1 : getCommitType ⟨some t, none, none, none, some h2, none⟩
      = (some (commitTypeOf t), []) := rfl
  have hsc : getCommitScope ⟨some t, none, none, none, some h2, none⟩
      = (none, [scopeMissingViolation]) := rfl
  have h3 : getCommitHeader ⟨some t, none, none, none, some h2, none⟩
      = (some h2, []) := rfl
  have h4 : getCommitBodyFooter ⟨some t, none, none, none, some h2, none⟩
      = ((none, none), []) := rfl
  have hres : Commit.lint (t ++ ':' :: ' ' :: h2)
      = { commit := some
            { breaking := decide (commitTypeOf t = CommitType.BreakingChange),
              commit_type := commitTypeOf t, scope := none, description := h2,
              body := none, footer := none },
          lints := [scopeMissingViolation] } := by
    unfold Commit.lint
    rw [hfind]
    simp only [h1, hsc, h3, h4, List.nil_append, List.append_nil]
    simp [List.insertionSort, List.orderedInsert, scopeMissingViolation]
  refine ⟨{ breaking := decide (commitTypeOf t = CommitType.BreakingChange),
            commit_type := commitTypeOf t, scope := none, description := h2,
            body := none, footer := none }, ?_, rfl, ?_⟩
  · rw [hres]
  · rw [hres]
    intro v hv
    simp only [List.mem_singleton] at hv
    subst hv
    decide

/-- Witness for C6 amended at `feat: x`. -/
theorem c6_plain_one_liner_witness :
    ∃ c, (Commit.lint ((("feat").toList) ++ ':' :: ' ' :: (("x").toList))).commit = some c
      ∧ c.description = ("x").toList
      ∧ ∀ v ∈ (Commit.lint ((("feat").toList) ++ ':' :: ' ' :: (("x").toList))).lints,
          v.level ≠ Level.Error :=
  c6_plain_one_liner (("feat").toList) (("x").toList) (by decide) (by decide) (by decide)
    (by decide)

/-- A list with a member of `takeWhile` satisfies the predicate. -/
theorem mem_takeWhile_pred {p : Char → Bool} :
    ∀ {l : List Char} {c : Char}, c ∈ l.takeWhile p → p c = true := by
  intro l
  induction l with
  | nil => intro c hc; simp [List.takeWhile] at hc
  | cons a t ih =>
    intro c hc
    rw [List.takeWhile_cons] at hc
    by_cases hpa : p a = true
    · rw [if_pos hpa] at hc
      rcases List.mem_cons.mp hc with rfl | hc2
      · exact hpa
      · exact ih hc2
    · rw [if_neg hpa] at hc
      simp at hc

/-- A non-empty list has `isEmpty = false`. -/
theorem isEmpty_false_of_ne_nil {α : Type} {l : List α} (h : l ≠ []) :
    l.isEmpty = false := by
  cases l with
  | nil => exact absurd rfl h
  | cons a t => rfl

/-- `Char.ofNat` on an offset decimal digit keeps its code point. -/
theorem charOfNat_digit_toNat {d : Nat} (hd : d < 10) :
    (Char.ofNat (48 + d)).toNat = 48 + d := by
  interval_cases d <;> decide

/-- Decimal digit characters satisfy `isDigitChar`. -/
theorem isDigitChar_ofNat {d : Nat} (hd : d < 10) :
    isDigitChar (Char.ofNat (48 + d)) = true := by
  interval_cases d <;> decide

/-- Every character of a rendered `u64` is a decimal digit. -/
theorem natToChars_all_digits (n : Nat) : ∀ c ∈ natToChars n, isDigitChar c = true := by
  intro c hc
  unfold natToChars at hc
  split at hc
  · simp at hc
    subst hc
    decide
  · obtain ⟨d, hd, rfl⟩ := List.mem_map.mp hc
    exact isDigitChar_ofNat (Nat.digits_lt_base (by norm_num) (List.mem_reverse.mp hd))

/-- A rendered `u64` is never the empty string. -/
theorem natToChars_ne_nil (n : Nat) : natToChars n ≠ [] := by
  unfold natToChars
  split
  · simp
  · rename_i hn
    simp [Nat.digits_ne_nil_iff_ne_zero.mpr hn]

/-- Horner evaluation of the rendered digit list. -/
theorem foldl_digits_chars :
    ∀ (L : List Nat), (∀ d ∈ L, d < 10) → ∀ a : Nat,
      ((L.reverse.map fun d => Char.ofNat (48 + d)).foldl
          (fun acc c => 10 * acc + (c.toNat - 48)) a)
        = a * 10 ^ L.length + Nat.ofDigits 10 L := by
  intro L
  induction L with
  | nil => intro hL a; simp [Nat.ofDigits_nil]
  | cons d T ih =>
    intro hL a
    have hd : d < 10 := hL d (by simp)
    have hT : ∀ x ∈ T, x < 10 := fun x hx => hL x (by simp [hx])
    simp only [List.reverse_cons, List.map_append, List.foldl_append, List.map_cons,
      List.map_nil, List.foldl_cons, List.foldl_nil, ih hT a]
    rw [charOfNat_digit_toNat hd]
    simp only [Nat.add_sub_cancel_left, Nat.ofDigits_cons, List.length_cons]
    ring

/-- Parsing the rendered decimal digits of `n` yields `n` back. -/
theorem charsToNat_natToChars (n : Nat) : charsToNat (natToChars n) = n := by
  unfold natToChars
  split
  · rename_i hn; subst hn; decide
  · unfold charsToNat
    rw [foldl_digits_chars (Nat.digits 10 n)
      (fun d hd => Nat.digits_lt_base (by norm_num) hd) 0]
    simp [Nat.ofDigits_digits]

/-- `parse::<u64>` round-trips on an in-range rendered value. -/
theorem parseU64_natToChars {n : Nat} (h : n < u64Mod) :
    parseU64 (natToChars n) = some n := by
  unfold parseU64
  rw [charsToNat_natToChars]
  rw [if_pos h]

/-- An optional group matches when its separator is next and a non-empty
class run follows, consuming exactly that run. -/
theorem optGroup_matches (sep : Char) (p rest : List Char) (hp : p ≠ [])
    (hpc : ∀ c ∈ p, isIdentChar c = true)
    (hrest : ∀ c, rest.head? = some c → isIdentChar c = false) :
    optGroup sep (sep :: (p ++ rest)) = (some (sep :: p), rest) := by
  unfold optGroup
  simp [takeWhile_append_all p rest hpc hrest, dropWhile_append_all p rest hpc hrest,
    isEmpty_false_of_ne_nil hp, List.drop_left]

/-- An optional group is skipped when the next character is not its
separator. -/
theorem optGroup_skips (sep c : Char) (t : List Char) (h : ¬ c = sep) :
    optGroup sep (c :: t) = (none, c :: t) := by
  simp [optGroup, h]

/-- Shared form of the version regex on a rendered version: the three
digit runs are captured, then the two optional groups run on the tail. -/
theorem versionMatchAt_digits (A B C R : List Char)
    (hA : ∀ c ∈ A, isDigitChar c = true) (hA0 : A ≠ [])
    (hB : ∀ c ∈ B, isDigitChar c = true) (hB0 : B ≠ [])
    (hC : ∀ c ∈ C, isDigitChar c = true) (hC0 : C ≠ [])
    (hR : ∀ c, R.head? = some c → isDigitChar c = false) :
    versionMatchAt (A ++ '.' :: (B ++ '.' :: (C ++ R)))
      = some ⟨A, B, C, (optGroup '-' R).1, (optGroup '+' (optGroup '-' R).2).1⟩ := by
  have hdot : ∀ (X : List Char) (c : Char),
      (('.' :: X).head? = some c) → isDigitChar c = false := by
    intro X c hc
    obtain rfl : c = '.' := by simpa using hc.symm
    decide
  have h1 := takeWhile_append_all A ('.' :: (B ++ '.' :: (C ++ R))) hA (hdot _)
  have h2 := dropWhile_append_all A ('.' :: (B ++ '.' :: (C ++ R))) hA (hdot _)
  have h3 := takeWhile_append_all B ('.' :: (C ++ R)) hB (hdot _)
  have h4 := dropWhile_append_all B ('.' :: (C ++ R)) hB (hdot _)
  have h5 := takeWhile_append_all C R hC hR
  have h6 := dropWhile_append_all C R hC hR
  unfold versionMatchAt
  rw [h1, h2]
  simp [isEmpty_false_of_ne_nil hA0, isEmpty_false_of_ne_nil hB0,
    isEmpty_false_of_ne_nil hC0, h3, h4, h5, h6]

/-- The version regex on the canonical rendering of a well-formed
version: each field is recovered as its capture. -/
theorem versionMatchAt_render (v : Version)
    (hpre : optIdent v.pre_release) (hmeta : optIdent v.metadata) :
    versionMatchAt v.render
      = some ⟨natToChars v.major, natToChars v.minor, natToChars v.patch,
          v.pre_release.map fun p => '-' :: p,
          v.metadata.map fun m => '+' :: m⟩ := by
  obtain ⟨ma, mi, pa, pre, meta⟩ := v
  have hplus : ∀ (X : List Char) (c : Char),
      (('+' :: X).head? = some c) → isIdentChar c = false := by
    intro X c hc
    obtain rfl : c = '+' := by simpa using hc.symm
    decide
  have hplusd : ∀ (X : List Char) (c : Char),
      (('+' :: X).head? = some c) → isDigitChar c = false := by
    intro X c hc
    obtain rfl : c = '+' := by simpa using hc.symm
    decide
  have hminusd : ∀ (X : List Char) (c : Char),
      (('-' :: X).head? = some c) → isDigitChar c = false := by
    intro X c hc
    obtain rfl : c = '-' := by simpa using hc.symm
    decide
  have hnil : ∀ c : Char, (([] : List Char).head? = some c) → isDigitChar c = false := by
    intro c hc
    simp at hc
  cases pre with
  | none =>
    cases meta with
    | none =>
      have hform : Version.render ⟨ma, mi, pa, none, none⟩
          = natToChars ma ++ '.' :: (natToChars mi ++ '.' :: (natToChars pa ++ [])) := by
        simp [Version.render]
      rw [hform, versionMatchAt_digits _ _ _ _ (natToChars_all_digits ma)
        (natToChars_ne_nil ma) (natToChars_all_digits mi) (natToChars_ne_nil mi)
        (natToChars_all_digits pa) (natToChars_ne_nil pa) hnil]
      rfl
    | some m =>
      obtain ⟨hm0, hmc⟩ := hmeta
      have hform : Version.render ⟨ma, mi, pa, none, some m⟩
          = natToChars ma ++ '.' :: (natToChars mi ++ '.' :: (natToChars pa
              ++ ('+' :: m))) := by
        simp [Version.render]
      rw [hform, versionMatchAt_digits _ _ _ _ (natToChars_all_digits ma)
        (natToChars_ne_nil ma) (natToChars_all_digits mi) (natToChars_ne_nil mi)
        (natToChars_all_digits pa) (natToChars_ne_nil pa) (hplusd m)]
      rw [optGroup_skips '-' '+' m (by decide)]
      have hm2 : optGroup '+' ('+' :: (m ++ [])) = (some ('+' :: m), []) :=
        optGroup_matches '+' m [] hm0 hmc (by intro c hc; simp at hc)
      rw [List.append_nil] at hm2
      rw [hm2]
      rfl
  | some p =>
    obtain ⟨hp0, hpc⟩ := hpre
    cases meta with
    | none =>
      have hform : Version.render ⟨ma, mi, pa, some p, none⟩
          = natToChars ma ++ '.' :: (natToChars mi ++ '.' :: (natToChars pa
              ++ ('-' :: (p ++ [])))) := by
        simp [Version.render]
      rw [hform, versionMatchAt_digits _ _ _ _ (natToChars_all_digits ma)
        (natToChars_ne_nil ma) (natToChars_all_digits mi) (natToChars_ne_nil mi)
        (natToChars_all_digits pa) (natToChars_ne_nil pa) (hminusd (p ++ []))]
      rw [optGroup_matches '-' p [] hp0 hpc (by intro c hc; simp at hc)]
      rfl
    | some m =>
      obtain ⟨hm0, hmc⟩ := hmeta
      have hform : Version.render ⟨ma, mi, pa, some p, some m⟩
          = natToChars ma ++ '.' :: (natToChars mi ++ '.' :: (natToChars pa
              ++ ('-' :: (p ++ '+' :: m)))) := by
        simp [Version.render]
      rw [hform, versionMatchAt_digits _ _ _ _ (natToChars_all_digits ma)
        (natToChars_ne_nil ma) (natToChars_all_digits mi) (natToChars_ne_nil mi)
        (natToChars_all_digits pa) (natToChars_ne_nil pa) (hminusd (p ++ '+' :: m))]
      rw [optGroup_matches '-' p ('+' :: m) hp0 hpc (hplus m)]
      have hm2 : optGroup '+' ('+' :: (m ++ [])) = (some ('+' :: m), []) :=
        optGroup_matches '+' m [] hm0 hmc (by intro c hc; simp at hc)
      rw [List.append_nil] at hm2
      rw [hm2]
      rfl

/-- A successful match at a position makes the version scan stop there. -/
theorem versionFind_of_matchAt (s : List Char) (caps : VCaps)
    (hm : versionMatchAt s = some caps) : versionFind s = some caps := by
  cases s with
  | nil => unfold versionFind; rw [hm]
  | cons a t => unfold versionFind; rw [hm]

/-- Rendering a well-formed version and parsing it back recovers it. -/
theorem parse_render_of_inv (v : Version) (hv : VersionInv v) :
    Version.parse v.render = some v := by
  obtain ⟨h1, h2, h3, h4, h5⟩ := hv
  have hm := versionMatchAt_render v h4 h5
  have hf := versionFind_of_matchAt _ _ hm
  unfold Version.parse
  rw [hf]
  simp only [parseU64_natToChars h1, parseU64_natToChars h2, parseU64_natToChars h3]
  obtain ⟨ma, mi, pa, pre, meta⟩ := v
  cases pre <;> cases meta <;> simp

/-- A captured optional group is its separator followed by a non-empty
class run. -/
theorem optGroup_fst_inv (sep : Char) (s gl : List Char)
    (h : (optGroup sep s).1 = some gl) :
    gl.drop 1 ≠ [] ∧ ∀ c ∈ gl.drop 1, isIdentChar c = true := by
  unfold optGroup at h
  cases s with
  | nil => exact absurd h (by simp)
  | cons c t =>
    simp only at h
    split at h
    · split at h
      · exact absurd h (by simp)
      · rename_i hrun
        simp only at h
        obtain rfl : gl = c :: t.takeWhile isIdentChar := by simpa using h.symm
        refine ⟨?_, ?_⟩
        · simp only [List.drop_succ_cons, List.drop_zero]
          intro hn
          exact hrun (by simp [hn])
        · intro x hx
          simp only [List.drop_succ_cons, List.drop_zero] at hx
          exact mem_takeWhile_pred hx
    · exact absurd h (by simp)

/-- Both optional captures of a successful version match are separator
plus non-empty class run. -/
theorem versionMatchAt_inv (s : List Char) (caps : VCaps)
    (h : versionMatchAt s = some caps) :
    (∀ g, caps.g4 = some g → g.drop 1 ≠ [] ∧ ∀ c ∈ g.drop 1, isIdentChar c = true)
      ∧ (∀ g, caps.g5 = some g → g.drop 1 ≠ [] ∧ ∀ c ∈ g.drop 1, isIdentChar c = true) := by
  unfold versionMatchAt at h
  simp only at h
  split at h
  · exact absurd h (by simp)
  · split at h
    · exact absurd h (by simp)
    · split at h
      · split at h
        · exact absurd h (by simp)
        · split at h
          · exact absurd h (by simp)
          · split at h
            · split at h
              · exact absurd h (by simp)
              · rename_i r5 _ _ _ _
                obtain rfl : caps = _ := ((Option.some.injEq _ _).mp h).symm
                constructor
                · intro g hg
                  exact optGroup_fst_inv '-' _ g hg
                · intro g hg
                  exact optGroup_fst_inv '+' _ g hg
            · exact absurd h (by simp)
      · exact absurd h (by simp)

/-- Propagation of the capture shape through the leftmost-match scan. -/
theorem versionFind_inv :
    ∀ (s : List Char) (caps : VCaps), versionFind s = some caps →
      (∀ g, caps.g4 = some g → g.drop 1 ≠ [] ∧ ∀ c ∈ g.drop 1, isIdentChar c = true)
        ∧ (∀ g, caps.g5 = some g → g.drop 1 ≠ [] ∧ ∀ c ∈ g.drop 1, isIdentChar c = true)
  | [], caps, h => by
    unfold versionFind at h
    cases hm : versionMatchAt [] with
    | none => rw [hm] at h; exact absurd h (by simp)
    | some caps2 =>
      rw [hm] at h
      simp only at h
      injection h with h2
      exact h2 ▸ versionMatchAt_inv [] caps2 hm
  | a :: t, caps, h => by
    unfold versionFind at h
    cases hm : versionMatchAt (a :: t) with
    | none => rw [hm] at h; exact versionFind_inv t caps h
    | some caps2 =>
      rw [hm] at h
      simp only at h
      injection h with h2
      exact h2 ▸ versionMatchAt_inv (a :: t) caps2 hm

/-- A successful `u64` conversion is in range. -/
theorem parseU64_lt (ds : List Char) (n : Nat) (h : parseU64 ds = some n) :
    n < u64Mod := by
  unfold parseU64 at h
  split at h
  · rename_i hlt
    injection h with h2
    exact h2 ▸ hlt
  · exact absurd h (by simp)

/-- Every version produced by `Version::parse` satisfies the invariant. -/
theorem parse_inv (s : List Char) (v : Version) (h : Version.parse s = some v) :
    VersionInv v := by
  unfold Version.parse at h
  cases hf : versionFind s with
  | none => rw [hf] at h; exact absurd h (by simp)
  | some caps =>
    rw [hf] at h
    simp only at h
    obtain ⟨hg4, hg5⟩ := versionFind_inv s caps hf
    cases hm1 : parseU64 caps.g1 with
    | none => rw [hm1] at h; exact absurd h (by simp)
    | some m =>
      cases hm2 : parseU64 caps.g2 with
      | none => rw [hm1, hm2] at h; exact absurd h (by simp)
      | some n =>
        cases hm3 : parseU64 caps.g3 with
        | none => rw [hm1, hm2, hm3] at h; exact absurd h (by simp)
        | some p =>
          rw [hm1, hm2, hm3] at h
          simp only at h
          obtain rfl : v = _ := ((Option.some.injEq _ _).mp h).symm
          refine ⟨parseU64_lt _ _ hm1, parseU64_lt _ _ hm2, parseU64_lt _ _ hm3, ?_, ?_⟩
          · cases hg : caps.g4 with
            | none => simp [optIdent, hg]
            | some g =>
              simp only [hg, Option.map_some]
              exact hg4 g hg
          · cases hg : caps.g5 with
            | none => simp [optIdent, hg]
            | some g =>
              simp only [hg, Option.map_some]
              exact hg5 g hg

/-- The `u64` modulus is positive. -/
theorem u64Mod_pos : 0 < u64Mod := by decide

/-- `bump` preserves the version invariant. -/
theorem bump_inv (v : Version) (c : ConventionalCommit) (h : VersionInv v) :
    VersionInv (v.bump c) := by
  obtain ⟨ma, mi, pa, pre, meta⟩ := v
  obtain ⟨h1, h2, h3, h4, h5⟩ := h
  unfold Version.bump
  split
  · exact ⟨Nat.mod_lt _ u64Mod_pos, h2, h3, h4, h5⟩
  · split
    · exact ⟨h1, h2, Nat.mod_lt _ u64Mod_pos, trivial, trivial⟩
    · exact ⟨h1, Nat.mod_lt _ u64Mod_pos, u64Mod_pos, trivial, trivial⟩
    · exact ⟨Nat.mod_lt _ u64Mod_pos, u64Mod_pos, u64Mod_pos, trivial, trivial⟩
    · exact ⟨h1, h2, h3, h4, h5⟩

/-- `rollback` preserves the version invariant. -/
theorem rollback_inv (v : Version) (c : ConventionalCommit) (h : VersionInv v) :
    VersionInv (v.rollback c) := by
  obtain ⟨ma, mi, pa, pre, meta⟩ := v
  obtain ⟨h1, h2, h3, h4, h5⟩ := h
  unfold Version.rollback
  split
  · exact ⟨Nat.mod_lt _ u64Mod_pos, h2, h3, h4, h5⟩
  · split
    · exact ⟨h1, h2, Nat.mod_lt _ u64Mod_pos, h4, h5⟩
    · exact ⟨h1, Nat.mod_lt _ u64Mod_pos, h3, h4, h5⟩
    · exact ⟨Nat.mod_lt _ u64Mod_pos, h2, h3, h4, h5⟩
    · exact ⟨h1, h2, h3, h4, h5⟩

/-- C10: for every version obtained from `Version::parse` and then
advanced by `bump` or rolled back by `rollback`, rendering with the
canonical `Display` format and re-parsing returns exactly that version
(parse is a left inverse of render on such values). -/
theorem c10_parse_render_roundtrip (s : List Char) (v0 : Version)
    (c : ConventionalCommit) (h : Version.parse s = some v0) :
    Version.parse ((v0.bump c).render) = some (v0.bump c)
      ∧ Version.parse ((v0.rollback c).render) = some (v0.rollback c) :=
  ⟨parse_render_of_inv _ (bump_inv _ _ (parse_inv s v0 h)),
   parse_render_of_inv _ (rollback_inv _ _ (parse_inv s v0 h))⟩

/-- Witness for C10 at `1.2.3-alpha.1+d408340` and a fix commit. -/
theorem c10_parse_render_roundtrip_witness :
    Version.parse ((c10exVersion.bump c10exCommit).render)
        = some (c10exVersion.bump c10exCommit)
      ∧ Version.parse ((c10exVersion.rollback c10exCommit).render)
        = some (c10exVersion.rollback c10exCommit) :=
  c10_parse_render_roundtrip (("1.2.3-alpha.1+d408340").toList) c10exVersion
    c10exCommit (by decide)

end Cocors
